import Mathlib

/-!
Verification development for the stat-translation engine
(PyPoE/poe/file/translations.py).

The Python classes are shallowly embedded as Lean structures and the
methods as executable functions.  Machine integers are modelled as `Int`
(Python ints are unbounded), numeric quantifier outputs as `ℚ` (Python
promotes to float on division; claims below never exercise fractional
arithmetic), Python exceptions as explicit `Except`/`Option` results.
Only the default rendering path (`use_placeholder = False`,
`only_values = False`) is modelled, since every claim exercises that
path only.
-/

namespace PyPoE

/-- A value supplied by the caller: either a scalar or a 2-tuple range,
mirroring the accepted inputs of `get_translation`. -/
inductive TValue where
  | scalar (v : Int)
  | range (lo hi : Int)
deriving DecidableEq

/-- A value after quantifier handling.  Python promotes ints to floats on
division; exact rational arithmetic stands in for floats here. -/
inductive QVal where
  | scalar (v : ℚ)
  | range (lo hi : ℚ)
deriving DecidableEq

/-- Embedding of `TranslationRange` (`parent` back-pointer dropped; it is
construction plumbing only).  `None` bounds model the `#` wildcard. -/
structure TranslationRange where
  min : Option Int
  max : Option Int
deriving DecidableEq

/-- Embedding of `TranslationRange.in_range`, the cascade of the Python method:
both bounds absent scores 1, a single satisfied bound scores 2, both
bounds satisfied scores 3, anything else 0. -/
def TranslationRange.in_range (r : TranslationRange) (value : Int) : Nat :=
  match r.min, r.max with
  | none, none => 1
  | none, some mx => if value ≤ mx then 2 else 0
  | some mn, none => if value ≥ mn then 2 else 0
  | some mn, some mx => if mn ≤ value ∧ value ≤ mx then 3 else 0

/-- Modelled from the spec: the predicate "v lies in the range", with
absent bounds acting as wildcards.  Used only to compare the code's
scoring function against the spec's membership notion. -/
def TranslationRange.mem (r : TranslationRange) (value : Int) : Prop :=
  match r.min, r.max with
  | none, none => True
  | none, some mx => value ≤ mx
  | some mn, none => mn ≤ value
  | some mn, some mx => mn ≤ value ∧ value ≤ mx

instance (r : TranslationRange) (v : Int) : Decidable (r.mem v) :=
  match r with
  | ⟨none, none⟩ => isTrue trivial
  | ⟨none, some mx⟩ => inferInstanceAs (Decidable (v ≤ mx))
  | ⟨some mn, none⟩ => inferInstanceAs (Decidable (mn ≤ v))
  | ⟨some mn, some mx⟩ => inferInstanceAs (Decidable (mn ≤ v ∧ v ≤ mx))

/-- Embedding of `TranslationQuantifier`: the `registered_handlers` dict
as an ordered association list (Python dicts preserve insertion order). -/
structure TranslationQuantifier where
  registered_handlers : List (String × List Nat)
deriving DecidableEq

/-- The fixed `TranslationQuantifier.handlers` registry.  Python floats
are modelled as `ℚ`; `round` (banker's rounding in Python) is modelled
with `round` on `ℚ`, a divergence only at exact halves, which no claim
exercises. -/
def quantifierHandlers (name : String) : Option (ℚ → ℚ) :=
  if name = "deciseconds_to_seconds" then some (fun v => v * 10)
  else if name = "divide_by_one_hundred" then some (fun v => v / 100)
  else if name = "per_minute_to_per_second" then some (fun v => v / 60)
  else if name = "milliseconds_to_seconds" then some (fun v => v / 1000)
  else if name = "negate" then some (fun v => v * (-1))
  else if name = "divide_by_one_hundred_and_negate" then some (fun v => -v / 100)
  else if name = "old_leech_percent" then some (fun v => v / 5)
  else if name = "old_leech_permyriad" then some (fun v => v / 50)
  else if name = "per_minute_to_per_second_0dp" then some (fun v => ((round (v / 60) : ℤ) : ℚ))
  else if name = "per_minute_to_per_second_2dp" then some (fun v => ((round (v / 60 * 100) : ℤ) : ℚ) / 100)
  else if name = "milliseconds_to_seconds_0dp" then some (fun v => ((round (v / 1000) : ℤ) : ℚ))
  else if name = "milliseconds_to_seconds_2dp" then some (fun v => ((round (v / 1000 * 100) : ℤ) : ℚ) / 100)
  else none

/-- Injection of caller values into post-quantifier values. -/
def toQVal : TValue → QVal
  | .scalar v => .scalar (v : ℚ)
  | .range lo hi => .range (lo : ℚ) (hi : ℚ)

/-- Pointwise application of a transform, as in `handle`: ranges are
transformed on each endpoint, scalars directly (the code branches on
`is_range[index]`, which by construction always agrees with the value
shape). -/
def QVal.pointwise (f : ℚ → ℚ) : QVal → QVal
  | .scalar v => .scalar (f v)
  | .range lo hi => .range (f lo) (f hi)

/-- One `values[index] = f(values[index])` step of `handle`.  An
out-of-bounds index would raise IndexError in Python; it is unreachable
for indices produced by the parser and modelled as a no-op. -/
def applyAtIndex (f : ℚ → ℚ) (index : Nat) (vals : List QVal) : List QVal :=
  match vals.get? index with
  | some v => vals.set index (v.pointwise f)
  | none => vals

/-- Embedding of `TranslationQuantifier.handle`: apply every registered handler to
each of its (1-based) indices.  The `none` branch is unreachable:
`register` only admits names present in the registry. -/
def TranslationQuantifier.handle (q : TranslationQuantifier) (values : List TValue)
    (_is_range : List Bool) : List QVal :=
  q.registered_handlers.foldl
    (fun vals entry =>
      match quantifierHandlers entry.1 with
      | some f => entry.2.foldl (fun vals index => applyAtIndex f (index - 1) vals) vals
      | none => vals)
    (values.map toQVal)

/-- Embedding of `TranslationString` (`parent` back-pointer dropped). -/
structure TranslationString where
  string : String
  range : List TranslationRange
  quantifier : TranslationQuantifier
deriving DecidableEq

/-- Model of Python `str.replace` for a non-empty pattern: left-to-right,
non-overlapping.  Fuelled structural recursion (fuel = source length)
keeps the definition kernel-computable. -/
def replaceFuel (pat rpl : List Char) : Nat → List Char → List Char
  | 0, s => s
  | _ + 1, [] => []
  | fuel + 1, c :: rest =>
      if pat.isPrefixOf (c :: rest) then
        rpl ++ replaceFuel pat rpl fuel (List.drop pat.length (c :: rest))
      else
        c :: replaceFuel pat rpl fuel rest

/-- Python `s.replace(pat, rpl)` on strings. -/
def pyReplace (s pat rpl : String) : String :=
  String.mk (replaceFuel pat.data rpl.data s.data.length s.data)

/-- The class constant `tags = '%%%s%%', '%%%s$+d'` instantiated at the
1-based index `i + 1`: the plain `%N%` form. -/
def tag1 (i : Nat) : String :=
  "%" ++ toString (i + 1) ++ "%"

/-- The sign form `%N$+d` of the `tags` class constant. -/
def tag2 (i : Nat) : String :=
  "%" ++ toString (i + 1) ++ "$+d"

/-- Embedding of `TranslationString._replace`: substitute both tag forms for index `i`
with the same replacement string and report whether nothing changed
(`s == new`, the unused-value signal). -/
def replaceTags (i : Nat) (s rpl : String) : String × Bool :=
  let new := pyReplace (pyReplace s (tag1 i) rpl) (tag2 i) rpl
  (new, s == new)

/-- Python `str` rendering of a handled number: integral rationals print
as their integer (matching `str(int)`), the non-integral case is an
approximation of float printing and is not exercised by any claim. -/
def pyStrQ (q : ℚ) : String :=
  if q.den = 1 then toString q.num else toString q

/-- The replacement text for one value in literal mode: ranges render as
`(lo to hi)`; scalars via `str`.  The mismatched branches (flag and
shape disagreeing) are unreachable by construction of `get_string`. -/
def renderVal (isr : Bool) (v : QVal) : String :=
  if isr then
    match v with
    | .range lo hi => "(" ++ pyStrQ lo ++ " to " ++ pyStrQ hi ++ ")"
    | .scalar x => "(" ++ pyStrQ x ++ " to " ++ pyStrQ x ++ ")"
  else
    match v with
    | .scalar x => pyStrQ x
    | .range lo hi => "(" ++ pyStrQ lo ++ ", " ++ pyStrQ hi ++ ")"

/-- The literal-mode substitution loop of `format_string`: for each
index in order, substitute both tag forms; values whose tags do not
occur are collected as unused, in iteration order. -/
def formatLoop (i : Nat) : List (QVal × Bool) → String → String × List QVal
  | [], s => (s, [])
  | (v, isr) :: rest, s =>
      let rpl := renderVal isr v
      let res := replaceTags i s rpl
      let out := formatLoop (i + 1) rest res.1
      (out.1, if res.2 then v :: out.2 else out.2)

/-- Embedding of `TranslationString.format_string` (default literal mode): first the
`%%` escape is collapsed, then quantifiers are applied, then the
placeholder substitution loop runs. -/
def TranslationString.format_string (ts : TranslationString) (values : List TValue)
    (is_range : List Bool) : String × List QVal :=
  let s := pyReplace ts.string ("%%") ("%")
  let qvals := ts.quantifier.handle values is_range
  formatLoop 0 (qvals.zip is_range) s

/-- Modelled from the spec: the same formatting pipeline but with the
`%%` escape collapsed only after placeholder substitution, as §4.C
step 1 of the spec words it.  Present solely to compare orderings. -/
def TranslationString.format_string_spec_order (ts : TranslationString) (values : List TValue)
    (is_range : List Bool) : String × List QVal :=
  let qvals := ts.quantifier.handle values is_range
  let out := formatLoop 0 (qvals.zip is_range) ts.string
  (pyReplace out.1 ("%%") ("%"), out.2)

/-- Embedding of `TranslationString.match_range`: sum of per-index range scores over
the present indices.  Out-of-bounds access raises IndexError in Python;
it is modelled by defaults and is unreachable for presence sets built by
`get_translation`. -/
def TranslationString.match_range (ts : TranslationString) (values : List Int)
    (indexes : List Nat) : Nat :=
  indexes.foldl
    (fun rating i => rating + (ts.range.getD i ⟨none, none⟩).in_range (values.getD i 0)) 0

/-- Embedding of `TranslationLanguage` (`parent` back-pointer dropped). -/
structure TranslationLanguage where
  language : String
  strings : List TranslationString
deriving DecidableEq

/-- The first element of the score-decorated list after the stable
descending sort of `get_string` (`temp.sort(key=lambda x: -x[0])` then
`temp[0]`): a running maximum replaced only on a strictly greater score,
which keeps the earliest declaration on ties. -/
def selectString (score : TranslationString → Nat) (best : TranslationString) :
    List TranslationString → TranslationString
  | [] => best
  | x :: xs => selectString score (if score best < score x then x else best) xs

/-- The first endpoint of a range value, used for score testing
(`test_values` in `get_string`). -/
def testValue : TValue → Int
  | .scalar v => v
  | .range lo _ => lo

/-- The `short_values` preprocessing of `get_string`: a range with equal
endpoints collapses to the scalar endpoint. -/
def shortValue : TValue → TValue
  | .scalar v => .scalar v
  | .range lo hi => if lo = hi then .scalar lo else .range lo hi

/-- The `is_range` flag of `get_string`: true only for ranges with
distinct endpoints. -/
def isRangeFlag : TValue → Bool
  | .scalar _ => false
  | .range lo hi => decide (¬ lo = hi)

/-- Embedding of `TranslationLanguage.get_string` (default literal mode): preprocess
values, score every owned string, pick the best scorer (earliest on
ties) and delegate formatting.  On an empty `strings` list the Python
code raises IndexError at `temp[0]`; this is modelled as `none`. -/
def TranslationLanguage.get_string (tl : TranslationLanguage) (values : List TValue)
    (indexes : List Nat) : Option (String × List QVal) :=
  let test_values := values.map testValue
  let short_values := values.map shortValue
  let is_range := values.map isRangeFlag
  match tl.strings with
  | [] => none
  | s :: ss =>
      let ts := selectString (fun t => t.match_range test_values indexes) s ss
      some (ts.format_string short_values is_range)

/-- Embedding of `Translation`: the ordered id tuple and the language
bundles.  Structural equality matches the Python `__eq__` over
`(ids, languages)`. -/
structure Translation where
  ids : List String
  languages : List TranslationLanguage
deriving DecidableEq

/-- The loop of `Translation.get_language`: return the first exact
language match; otherwise remember the most recent English bundle as the
fallback. -/
def getLanguageGo (lang : String) : List TranslationLanguage →
    Option TranslationLanguage → Option TranslationLanguage
  | [], etr => etr
  | tl :: rest, etr =>
      if tl.language = lang then some tl
      else getLanguageGo lang rest (if tl.language = "English" then some tl else etr)

/-- Embedding of `Translation.get_language`: exact match or English fallback, `none`
when neither exists (Python returns `None`). -/
def Translation.get_language (tr : Translation) (lang : String) : Option TranslationLanguage :=
  getLanguageGo lang tr.languages none

/-- Embedding of `TranslationFile`: the declaration-ordered translation
list and the `_translations_hash` dict as an ordered association list. -/
structure TranslationFile where
  translations : List Translation
  translations_hash : List (String × List Translation)
deriving DecidableEq

/-- Python dict lookup on the association-list model. -/
def dictLookup : List (String × List Translation) → String → Option (List Translation)
  | [], _ => none
  | p :: rest, k => if p.1 = k then some p.2 else dictLookup rest k

/-- Python dict assignment: replace the value of an existing key in
place, otherwise append the new binding (insertion order preserved). -/
def dictSet (d : List (String × List Translation)) (k : String)
    (v : List Translation) : List (String × List Translation) :=
  match d with
  | [] => [(k, v)]
  | p :: rest => if p.1 = k then (k, v) :: rest else p :: dictSet rest k v

/-- Outcome of the `for old_translation in bucket` loop of
`_add_translation_hashed`.  The loop appends the incoming translation to
the live bucket on every non-matching element, so when the originals are
exhausted the iteration reaches the first appended copy and returns via
the equality branch; `k` counts the append/warn steps taken before the
return. -/
inductive AddScan where
  | equal (appends : Nat)
  | idsEqual (old : Translation) (appends : Nat)

/-- Scan of the original bucket elements for `_add_translation_hashed`:
first structurally equal element wins, else first element with the same
`ids` tuple, else fall through to the appended copy of `t` itself. -/
def addScan (t : Translation) : List Translation → Nat → AddScan
  | [], k => .equal k
  | old :: rest, k =>
      if t = old then .equal k
      else if t.ids = old.ids then .idsEqual old k
      else addScan t rest (k + 1)

/-- Embedding of `TranslationFile._add_translation_hashed`, returning the updated
file and the `DuplicateIdentifier` warnings issued.  In the
ids-equal case the whole bucket is overwritten with `[t]` and the old
translation is removed from the ordered list (`List.erase` matches the
`try/except ValueError` removal); in the equality case the bucket keeps
the appends made by the loop before the return. -/
def TranslationFile.add_translation_hashed (file : TranslationFile)
    (translation_id : String) (t : Translation) : TranslationFile × List String :=
  match dictLookup file.translations_hash translation_id with
  | none =>
      ({ file with translations_hash := dictSet file.translations_hash translation_id [t] }, [])
  | some bucket =>
      match addScan t bucket 0 with
      | .equal k =>
          let newHash := dictSet file.translations_hash translation_id
            (bucket ++ List.replicate k t)
          ({ file with translations_hash := newHash },
           List.replicate k ("Duplicate id " ++ translation_id))
      | .idsEqual old k =>
          ({ translations := file.translations.erase old,
             translations_hash := dictSet file.translations_hash translation_id [t] },
           List.replicate k ("Duplicate id " ++ translation_id))

/-- Embedding of `TranslationFile.merge`: append the other file's ordered list, then
re-index every translation of the other file's hash through
`_add_translation_hashed`, collecting the warnings. -/
def TranslationFile.merge (self other : TranslationFile) : TranslationFile × List String :=
  other.translations_hash.foldl
    (fun acc entry =>
      entry.2.foldl
        (fun acc2 tr =>
          let step := acc2.1.add_translation_hashed entry.1 tr
          (step.1, acc2.2 ++ step.2))
        acc)
    ({ self with translations := self.translations ++ other.translations }, [])

/-- The tail of a `description` block in `_read`: the finished
translation is appended to the ordered list and indexed under each of
its ids. -/
def TranslationFile.addParsed (file : TranslationFile) (t : Translation) : TranslationFile :=
  t.ids.foldl (fun f tid => (f.add_translation_hashed tid t).1)
    { file with translations := file.translations ++ [t] }

/-- A file built by parsing the given translations in order. -/
def mkFile (ts : List Translation) : TranslationFile :=
  ts.foldl TranslationFile.addParsed ⟨[], []⟩

/-- The Python exceptions that `get_translation` can actually raise in
the modelled paths. -/
inductive PyError where
  | indexError
  | attributeError
deriving DecidableEq

/-- Embedding of `TranslationResult`. -/
structure TranslationResult where
  found : List Translation
  lines : List String
  indexes : List (List Nat)
  missing_ids : List String
  missing_values : List TValue
  values : List (List TValue)
  invalid : List Translation
  values_unused : List (List QVal)
deriving DecidableEq

/-- The `0xFFFFFFFF` sentinel pre-filling value vectors in
`get_translation`. -/
def sentinel : TValue := .scalar 4294967295

/-- The bookkeeping built by the gathering loop of `get_translation`. -/
structure GatherState where
  found : List Translation
  indexes : List (List Nat)
  found_values : List (List TValue)
  missing : List String
  missing_values : List TValue
deriving DecidableEq

/-- One `for tr in self._translations_hash[tag]` step: record the value
at the position of `tag` inside `tr.ids`, creating a sentinel-prefilled
vector on first encounter of `tr`. -/
def gatherTr (tag : String) (v : TValue) (st : GatherState) (tr : Translation) : GatherState :=
  let index := tr.ids.indexOf tag
  if tr ∈ st.found then
    let tf := st.found.indexOf tr
    { st with indexes := st.indexes.set tf (st.indexes.getD tf [] ++ [index]),
              found_values := st.found_values.set tf ((st.found_values.getD tf []).set index v) }
  else
    { st with found := st.found ++ [tr],
              indexes := st.indexes ++ [[index]],
              found_values := st.found_values ++
                [(List.replicate tr.ids.length sentinel).set index v] }

/-- One `(tag, values[i])` step of the gathering loop: unknown tags go
to the missing lists, otherwise every translation in the tag's bucket is
visited. -/
def gatherOne (file : TranslationFile) (st : GatherState) (tag : String)
    (v : TValue) : GatherState :=
  match dictLookup file.translations_hash tag with
  | none => { st with missing := st.missing ++ [tag], missing_values := st.missing_values ++ [v] }
  | some bucket => bucket.foldl (gatherTr tag v) st

/-- The `for i, tag in enumerate(tags)` loop: `values[i]` raises
IndexError as soon as the tags outrun the values; surplus values are
never touched. -/
def gatherAll (file : TranslationFile) : List String → List TValue → GatherState →
    Except PyError GatherState
  | [], _, st => .ok st
  | _ :: _, [], _ => .error .indexError
  | tag :: tags, v :: vs, st => gatherAll file tags vs (gatherOne file st tag v)

/-- The rendering loop of `get_translation` over the surviving
translations: `get_language` returning `None` surfaces as the Python
AttributeError on `None.get_string`, an empty bundle as the IndexError
inside `get_string`. -/
def renderAll (lang : String) : List (Translation × List Nat × List TValue) →
    Except PyError (List String × List (List QVal))
  | [] => .ok ([], [])
  | (tr, idxs, vals) :: rest =>
      match tr.get_language lang with
      | none => .error .attributeError
      | some tl =>
          match tl.get_string vals idxs with
          | none => .error .indexError
          | some res =>
              match renderAll lang rest with
              | .error e => .error e
              | .ok out => .ok (res.1 :: out.1, res.2 :: out.2)

/-- Embedding of `TranslationFile.get_translation` (full-result form): gather the
candidate translations for the supplied tags, drop the ones whose value
vector still contains the sentinel into `invalid`, render the rest. -/
def TranslationFile.get_translation (file : TranslationFile) (tags : List String)
    (values : List TValue) (lang : String) : Except PyError TranslationResult :=
  match gatherAll file tags values ⟨[], [], [], [], []⟩ with
  | .error e => .error e
  | .ok st =>
      let triples := st.found.zip (st.indexes.zip st.found_values)
      let invalid := (triples.filter (fun tr => decide (sentinel ∈ tr.2.2))).map Prod.fst
      let kept := triples.filter (fun tr => ! decide (sentinel ∈ tr.2.2))
      match renderAll lang kept with
      | .error e => .error e
      | .ok out =>
          .ok { found := kept.map Prod.fst,
                lines := out.1,
                indexes := kept.map (fun tr => tr.2.1),
                missing_ids := st.missing,
                missing_values := st.missing_values,
                values := kept.map (fun tr => tr.2.2),
                invalid := invalid,
                values_unused := out.2 }

/-! ### Helper lemmas -/

/-- A left fold accumulating additions equals the initial value plus the
sum of the mapped list. -/
theorem foldl_add_eq_sum (f : Nat → Nat) (l : List Nat) (a : Nat) :
    l.foldl (fun r i => r + f i) a = a + (l.map f).sum := by
  induction l generalizing a with
  | nil => simp
  | cons x xs ih => simp [ih, Nat.add_assoc]

/-! ### Claim C2 -/

/-- C2: for every range and integer, `in_range` realises exactly the
spec's score table — 1 for a double wildcard, 2 for a single satisfied
bound, 3 when both bounds hold, 0 otherwise — so the score is always at
most 3 and is positive exactly when the value lies in the range. -/
theorem C2_in_range_spec (r : TranslationRange) (v : Int) :
    (r.min = none → r.max = none → r.in_range v = 1) ∧
    (∀ mx, r.min = none → r.max = some mx → v ≤ mx → r.in_range v = 2) ∧
    (∀ mn, r.min = some mn → r.max = none → mn ≤ v → r.in_range v = 2) ∧
    (∀ mn mx, r.min = some mn → r.max = some mx → mn ≤ v → v ≤ mx → r.in_range v = 3) ∧
    (¬ r.mem v → r.in_range v = 0) ∧
    r.in_range v ≤ 3 ∧
    (0 < r.in_range v ↔ r.mem v) := by
  obtain ⟨mn, mx⟩ := r
  rcases mn with _ | mn <;> rcases mx with _ | mx <;>
    simp [TranslationRange.in_range, TranslationRange.mem] <;>
    split_ifs <;> simp_all <;> omega

/-- Witness for C2 at the concrete range `≤ 5` and value 3. -/
theorem C2_witness :
    (TranslationRange.mk none (some 5)).in_range 3 = 2 ∧
    (0 < (TranslationRange.mk none (some 5)).in_range 3 ↔
      (TranslationRange.mk none (some 5)).mem 3) :=
  ⟨(C2_in_range_spec ⟨none, some 5⟩ 3).2.1 5 rfl rfl (by decide),
   (C2_in_range_spec ⟨none, some 5⟩ 3).2.2.2.2.2.2⟩

/-! ### Claim C5 -/

/-- A variant whose template is `%%1%%`: the escape flanks the first
placeholder on both sides. -/
def tsC5 : TranslationString :=
  { string := "%%1%%", range := [⟨none, none⟩], quantifier := ⟨[]⟩ }

/-- A variant whose template is `%1%%%`, the idiomatic
`x% reduced` pattern. -/
def tsC5b : TranslationString :=
  { string := "%1%%%", range := [⟨none, none⟩], quantifier := ⟨[]⟩ }

/-- C5 counterexample: on the template `%%1%%` with value 5, the code's
escape-first order renders `5` while the spec's substitution-first order
renders `%5%` — the escape does alias with the placeholder. -/
theorem C5_counterexample :
    tsC5.format_string [.scalar 5] [false] ≠
      tsC5.format_string_spec_order [.scalar 5] [false] := by decide

/-- C5 amended: `format_string` collapses the `%%` escape before
placeholder substitution, so the escape can alias with placeholders:
`%%1%%` with value 5 renders as `5` (the escape residue is consumed by
the placeholder) and `%1%%%` renders as `5%`. -/
theorem C5_amended_escape_order :
    tsC5.format_string [.scalar 5] [false] = ("5", []) ∧
    tsC5b.format_string [.scalar 5] [false] = ("5%", []) := by decide

/-! ### Claim C6 -/

/-- A variant whose template is the sign form `%1$+d`. -/
def tsC6sign : TranslationString :=
  { string := "%1$+d", range := [⟨none, none⟩], quantifier := ⟨[]⟩ }

/-- A variant whose template is the plain form `%1%`. -/
def tsC6plain : TranslationString :=
  { string := "%1%", range := [⟨none, none⟩], quantifier := ⟨[]⟩ }

/-- C6 counterexample: the sign form `%1$+d` renders the value 5 as `5`,
not `+5` — `_replace` substitutes the same unsigned string for both tag
forms, so no explicit plus sign is ever produced. -/
theorem C6_counterexample :
    tsC6sign.format_string [.scalar 5] [false] = ("5", []) ∧
    tsC6sign.format_string [.scalar 5] [false] ≠ ("+5", []) := by decide

/-- C6 amended: both placeholder forms are substituted with the identical
`str(value)` rendering; nonnegative values carry no forced `+` in the
`%N$+d` form, and negative values show `-` only because `str` does. -/
theorem C6_amended_sign_form :
    tsC6sign.format_string [.scalar 5] [false] = ("5", []) ∧
    tsC6sign.format_string [.scalar (-5)] [false] = ("-5", []) ∧
    tsC6plain.format_string [.scalar 5] [false] = ("5", []) ∧
    tsC6plain.format_string [.scalar (-5)] [false] = ("-5", []) := by decide

/-! ### Claim C7 -/

/-- A variant with ranges `5|5` and `0|0`, scoring 3 on the first index
and 0 on the second for the test values `[5, 1]`. -/
def tsC7 : TranslationString :=
  { string := "", range := [⟨some 5, some 5⟩, ⟨some 0, some 0⟩], quantifier := ⟨[]⟩ }

/-- C7 counterexample: with values `[5, 1]` and both indices present the
total score is 3 although the second present index scores 0 — the score
is not zero as soon as *some* present index scores zero. -/
theorem C7_counterexample :
    ¬ (tsC7.match_range [5, 1] [0, 1] = 0 ↔
        ∃ i ∈ ([0, 1] : List Nat),
          (tsC7.range.getD i ⟨none, none⟩).in_range (([5, 1] : List Int).getD i 0) = 0) := by
  decide

/-- C7 amended: `match_range` is the sum of the per-index scores over
the present indices, and (for a nonempty presence set) it is zero iff
*every* present index scores zero. -/
theorem C7_amended_match_score (ts : TranslationString) (values : List Int)
    (indexes : List Nat)
    (hidx : ∀ i ∈ indexes, i < ts.range.length ∧ i < values.length) :
    ts.match_range values indexes =
      (indexes.map (fun i => (ts.range.getD i ⟨none, none⟩).in_range (values.getD i 0))).sum ∧
    (indexes ≠ [] →
      (ts.match_range values indexes = 0 ↔
        ∀ i ∈ indexes,
          (ts.range.getD i ⟨none, none⟩).in_range (values.getD i 0) = 0)) := by
  have hsum : ts.match_range values indexes =
      (indexes.map (fun i => (ts.range.getD i ⟨none, none⟩).in_range (values.getD i 0))).sum := by
    unfold TranslationString.match_range
    simpa using foldl_add_eq_sum
      (fun i => (ts.range.getD i ⟨none, none⟩).in_range (values.getD i 0)) indexes 0
  refine ⟨hsum, fun _ => ?_⟩
  rw [hsum, List.sum_eq_zero_iff]
  constructor
  · intro h i hi
    exact h _ (List.mem_map_of_mem _ hi)
  · intro h x hx
    obtain ⟨i, hi, rfl⟩ := List.mem_map.1 hx
    exact h i hi

/-- Witness for C7 on the two-range variant with both indices present. -/
theorem C7_witness :
    tsC7.match_range [5, 1] [0, 1] =
      (([0, 1] : List Nat).map
        (fun i => (tsC7.range.getD i ⟨none, none⟩).in_range (([5, 1] : List Int).getD i 0))).sum ∧
    (tsC7.match_range [5, 1] [0, 1] = 0 ↔
      ∀ i ∈ ([0, 1] : List Nat),
        (tsC7.range.getD i ⟨none, none⟩).in_range (([5, 1] : List Int).getD i 0) = 0) :=
  ⟨(C7_amended_match_score tsC7 [5, 1] [0, 1] (by decide)).1,
   (C7_amended_match_score tsC7 [5, 1] [0, 1] (by decide)).2 (by decide)⟩

/-! ### Claim C1 -/

/-- The running-maximum selection keeps the first element attaining the
maximal score: either the initial candidate wins (every listed element
scores no higher), or the result splits the list with strictly smaller
scores before it and no higher scores after it. -/
theorem selectString_spec (score : TranslationString → Nat) (l : List TranslationString)
    (b : TranslationString) :
    (selectString score b l = b ∧ ∀ x ∈ l, score x ≤ score b) ∨
    (∃ l1 l2, l = l1 ++ selectString score b l :: l2 ∧
      score b < score (selectString score b l) ∧
      (∀ x ∈ l1, score x < score (selectString score b l)) ∧
      (∀ x ∈ l2, score x ≤ score (selectString score b l))) := by
  induction l generalizing b with
  | nil => exact Or.inl ⟨rfl, by simp⟩
  | cons x xs ih =>
    by_cases h : score b < score x
    · have hsel : selectString score b (x :: xs) = selectString score x xs := by
        simp [selectString, h]
      rcases ih x with ⟨heq, hall⟩ | ⟨l1, l2, hdec, hlt, hl1, hl2⟩
      · refine Or.inr ⟨[], xs, ?_, ?_, by simp, ?_⟩
        · rw [hsel, heq]; simp
        · rw [hsel, heq]; exact h
        · intro y hy; rw [hsel, heq]; exact hall y hy
      · refine Or.inr ⟨x :: l1, l2, ?_, ?_, ?_, ?_⟩
        · rw [hsel]; nth_rewrite 1 [hdec]; simp
        · rw [hsel]; exact lt_trans h hlt
        · intro y hy
          rcases List.mem_cons.1 hy with rfl | hy2
          · rw [hsel]; exact hlt
          · rw [hsel]; exact hl1 y hy2
        · intro y hy; rw [hsel]; exact hl2 y hy
    · have hsel : selectString score b (x :: xs) = selectString score b xs := by
        simp [selectString, h]
      rcases ih b with ⟨heq, hall⟩ | ⟨l1, l2, hdec, hlt, hl1, hl2⟩
      · refine Or.inl ⟨by rw [hsel, heq], ?_⟩
        intro y hy
        rcases List.mem_cons.1 hy with rfl | hy2
        · exact Nat.le_of_not_lt h
        · exact hall y hy2
      · refine Or.inr ⟨x :: l1, l2, ?_, ?_, ?_, ?_⟩
        · rw [hsel]; nth_rewrite 1 [hdec]; simp
        · rw [hsel]; exact hlt
        · intro y hy
          rcases List.mem_cons.1 hy with rfl | hy2
          · rw [hsel]; exact lt_of_le_of_lt (Nat.le_of_not_lt h) hlt
          · rw [hsel]; exact hl1 y hy2
        · intro y hy; rw [hsel]; exact hl2 y hy

/-- C1 amended: `get_string` always selects the variant with the maximal
`match_range` score, ties broken by earliest declaration order, and
formats it; no variant is ever rejected for scoring 0 on a present
index (and hence language selection never fails on scores — English
fallback happens only when the requested language bundle is absent). -/
theorem C1_amended_selection (tl : TranslationLanguage) (values : List TValue)
    (indexes : List Nat) (h : tl.strings ≠ []) :
    ∃ s1 ts s2, tl.strings = s1 ++ ts :: s2 ∧
      tl.get_string values indexes =
        some (ts.format_string (values.map shortValue) (values.map isRangeFlag)) ∧
      (∀ t2 ∈ tl.strings,
        t2.match_range (values.map testValue) indexes ≤
          ts.match_range (values.map testValue) indexes) ∧
      (∀ t1 ∈ s1,
        t1.match_range (values.map testValue) indexes <
          ts.match_range (values.map testValue) indexes) := by
  obtain ⟨s, ss, hss⟩ : ∃ s ss, tl.strings = s :: ss := by
    cases hstr : tl.strings with
    | nil => exact absurd hstr h
    | cons a as => exact ⟨a, as, rfl⟩
  have hget : tl.get_string values indexes =
      some ((selectString (fun t => t.match_range (values.map testValue) indexes) s ss).format_string
        (values.map shortValue) (values.map isRangeFlag)) := by
    unfold TranslationLanguage.get_string
    rw [hss]
  set score := fun t : TranslationString => t.match_range (values.map testValue) indexes with hscore
  rcases selectString_spec score ss s with ⟨heq, hall⟩ | ⟨l1, l2, hdec, hlt, hl1, hl2⟩
  · refine ⟨[], s, ss, by simp [hss], ?_, ?_, by simp⟩
    · rw [heq] at hget; exact hget
    · intro t2 ht2
      rw [hss] at ht2
      rcases List.mem_cons.1 ht2 with rfl | h2
      · exact le_refl _
      · exact hall t2 h2
  · refine ⟨s :: l1, selectString score s ss, l2, ?_, hget, ?_, ?_⟩
    · rw [hss]; nth_rewrite 1 [hdec]; simp
    · intro t2 ht2
      rw [hss, hdec] at ht2
      rcases List.mem_cons.1 ht2 with rfl | h2
      · exact le_of_lt hlt
      · rcases List.mem_append.1 h2 with h3 | h3
        · exact le_of_lt (hl1 t2 h3)
        · rcases List.mem_cons.1 h3 with rfl | h4
          · exact le_refl _
          · exact hl2 t2 h4
    · intro t1 ht1
      rcases List.mem_cons.1 ht1 with rfl | h2
      · exact hlt
      · exact hl1 t1 h2

/-- Wildcard variant `A` of arity 2. -/
def tsC1a : TranslationString :=
  { string := "A", range := [⟨none, none⟩, ⟨none, none⟩], quantifier := ⟨[]⟩ }

/-- Variant `B` of arity 2 with ranges `5|5` and `0|0`: it scores 3 on
the first index and 0 on the second for the values `(5, 1)`. -/
def tsC1b : TranslationString :=
  { string := "B", range := [⟨some 5, some 5⟩, ⟨some 0, some 0⟩], quantifier := ⟨[]⟩ }

/-- A language bundle declaring `A` before `B`. -/
def tlC1 : TranslationLanguage := { language := "English", strings := [tsC1a, tsC1b] }

/-- C1 counterexample: with values `(5, 1)` and both indices present,
variant `B` scores 0 on present index 1 yet wins the selection (total
score 3 beats the wildcard's 2); it is not rejected as a candidate, and
its phrase — not the wildcard's — is returned. -/
theorem C1_counterexample :
    tlC1.get_string [.scalar 5, .scalar 1] [0, 1] =
      some ("B", [QVal.scalar 5, QVal.scalar 1]) ∧
    (tsC1b.range.getD 1 ⟨none, none⟩).in_range 1 = 0 ∧
    tsC1b.match_range [5, 1] [0, 1] = 3 ∧
    tsC1a.match_range [5, 1] [0, 1] = 2 := by decide

/-- Witness for C1 on the two-variant bundle. -/
theorem C1_witness :
    ∃ s1 ts s2, tlC1.strings = s1 ++ ts :: s2 ∧
      tlC1.get_string [.scalar 5, .scalar 1] [0, 1] =
        some (ts.format_string ([TValue.scalar 5, TValue.scalar 1].map shortValue)
          ([TValue.scalar 5, TValue.scalar 1].map isRangeFlag)) ∧
      (∀ t2 ∈ tlC1.strings,
        t2.match_range ([TValue.scalar 5, TValue.scalar 1].map testValue) [0, 1] ≤
          ts.match_range ([TValue.scalar 5, TValue.scalar 1].map testValue) [0, 1]) ∧
      (∀ t1 ∈ s1,
        t1.match_range ([TValue.scalar 5, TValue.scalar 1].map testValue) [0, 1] <
          ts.match_range ([TValue.scalar 5, TValue.scalar 1].map testValue) [0, 1]) :=
  C1_amended_selection tlC1 [.scalar 5, .scalar 1] [0, 1] (by decide)

/-! ### Gathering lemmas for claims C3 and C10 -/

/-- The value vector produced by repeatedly executing
`found_values[index(tag)] = value` for a pair list, starting from a
given vector. -/
def setVals (ids : List String) : List (String × TValue) → List TValue → List TValue
  | [], vec => vec
  | pr :: rest, vec => setVals ids rest (vec.set (ids.indexOf pr.1) pr.2)

theorem setVals_length (ids : List String) (pairs : List (String × TValue))
    (vec : List TValue) : (setVals ids pairs vec).length = vec.length := by
  induction pairs generalizing vec with
  | nil => rfl
  | cons pr rest ih => rw [setVals, ih, List.length_set]

theorem setVals_getElem_ne (ids : List String) (pairs : List (String × TValue))
    (vec : List TValue) (p : Nat) (h : ∀ pr ∈ pairs, ids.indexOf pr.1 ≠ p) :
    (setVals ids pairs vec)[p]? = vec[p]? := by
  induction pairs generalizing vec with
  | nil => rfl
  | cons pr rest ih =>
      rw [setVals, ih _ (fun q hq => h q (List.mem_cons_of_mem _ hq))]
      exact List.getElem?_set_ne (h pr (List.mem_cons_self _ _))

theorem setVals_getElem_mem (ids : List String) (pairs : List (String × TValue))
    (vec : List TValue) (tag0 : String) (v0 : TValue)
    (hmem : (tag0, v0) ∈ pairs)
    (hnd : (pairs.map Prod.fst).Nodup)
    (hsub : ∀ pr ∈ pairs, pr.1 ∈ ids)
    (hp : ids.indexOf tag0 < vec.length) :
    (setVals ids pairs vec)[ids.indexOf tag0]? = some v0 := by
  induction pairs generalizing vec with
  | nil => cases hmem
  | cons pr rest ih =>
      rcases List.mem_cons.1 hmem with heq | hmem2
      · subst heq
        have hnotin : tag0 ∉ rest.map Prod.fst := (List.nodup_cons.1 hnd).1
        have hne2 : ∀ q ∈ rest, ids.indexOf q.1 ≠ ids.indexOf tag0 := by
          intro q hq habs
          have hq1 : q.1 ∈ ids := hsub q (List.mem_cons_of_mem _ hq)
          have ht1 : tag0 ∈ ids := hsub (tag0, v0) (List.mem_cons_self _ _)
          have : q.1 = tag0 := (List.indexOf_inj hq1 ht1).1 habs
          exact hnotin (this ▸ List.mem_map_of_mem Prod.fst hq)
        rw [setVals, setVals_getElem_ne ids rest _ _ hne2]
        exact List.getElem?_set_eq_of_lt _ hp
      · rw [setVals]
        exact ih _ hmem2 (List.nodup_cons.1 hnd).2
          (fun q hq => hsub q (List.mem_cons_of_mem _ hq))
          (by simpa using hp)

/-- The gathering step when the state already holds exactly the single
translation `T`: the presence index is appended and the value recorded
at the position of the tag inside `T.ids`. -/
theorem gatherTr_found_single (tag : String) (v : TValue) (T : Translation)
    (idxs : List Nat) (vec : List TValue) :
    gatherTr tag v ⟨[T], [idxs], [vec], [], []⟩ T =
      ⟨[T], [idxs ++ [T.ids.indexOf tag]], [vec.set (T.ids.indexOf tag) v], [], []⟩ := by
  unfold gatherTr
  simp

/-- The gathering step from the empty state: the translation is added
with a sentinel-prefilled vector. -/
theorem gatherTr_new (tag : String) (v : TValue) (T : Translation) :
    gatherTr tag v ⟨[], [], [], [], []⟩ T =
      ⟨[T], [[T.ids.indexOf tag]],
       [(List.replicate T.ids.length sentinel).set (T.ids.indexOf tag) v], [], []⟩ := by
  unfold gatherTr
  simp

/-- Running the gathering loop over tags whose bucket is exactly `[T]`
from a state already holding `T`: the presence indices and value vector
accumulate positionally. -/
theorem gatherAll_single_step (file : TranslationFile) (T : Translation)
    (tags : List String) :
    ∀ (values : List TValue) (idxs : List Nat) (vec : List TValue),
    (∀ tag ∈ tags, dictLookup file.translations_hash tag = some [T]) →
    tags.length ≤ values.length →
    gatherAll file tags values ⟨[T], [idxs], [vec], [], []⟩ =
      .ok ⟨[T], [idxs ++ tags.map (fun tag => T.ids.indexOf tag)],
           [setVals T.ids (tags.zip values) vec], [], []⟩ := by
  induction tags with
  | nil => intro values idxs vec h hlen; simp [gatherAll, setVals]
  | cons tag tags ih =>
      intro values idxs vec h hlen
      match values with
      | [] => simp at hlen
      | v :: vs =>
          have hstep : gatherAll file (tag :: tags) (v :: vs) ⟨[T], [idxs], [vec], [], []⟩ =
              gatherAll file tags vs
                (gatherOne file ⟨[T], [idxs], [vec], [], []⟩ tag v) := rfl
          have hone : gatherOne file ⟨[T], [idxs], [vec], [], []⟩ tag v =
              gatherTr tag v ⟨[T], [idxs], [vec], [], []⟩ T := by
            unfold gatherOne
            rw [h tag (List.mem_cons_self _ _)]
            rfl
          rw [hstep, hone, gatherTr_found_single,
            ih vs (idxs ++ [T.ids.indexOf tag]) (vec.set (T.ids.indexOf tag) v)
              (fun t ht => h t (List.mem_cons_of_mem _ ht)) (by simpa using hlen)]
          simp [setVals, List.zip]

/-- The full gathering loop on a nonempty tag list whose every bucket is
exactly `[T]`, started from the initial empty state. -/
theorem gatherAll_single (file : TranslationFile) (T : Translation) (tag0 : String)
    (tags : List String) (v0 : TValue) (values : List TValue)
    (h : ∀ tag ∈ tag0 :: tags, dictLookup file.translations_hash tag = some [T])
    (hlen : (tag0 :: tags).length ≤ (v0 :: values).length) :
    gatherAll file (tag0 :: tags) (v0 :: values) ⟨[], [], [], [], []⟩ =
      .ok ⟨[T], [(tag0 :: tags).map (fun tag => T.ids.indexOf tag)],
           [setVals T.ids ((tag0 :: tags).zip (v0 :: values))
             (List.replicate T.ids.length sentinel)], [], []⟩ := by
  have hstep : gatherAll file (tag0 :: tags) (v0 :: values) ⟨[], [], [], [], []⟩ =
      gatherAll file tags values (gatherOne file ⟨[], [], [], [], []⟩ tag0 v0) := rfl
  have hone : gatherOne file ⟨[], [], [], [], []⟩ tag0 v0 =
      gatherTr tag0 v0 ⟨[], [], [], [], []⟩ T := by
    unfold gatherOne
    rw [h tag0 (List.mem_cons_self _ _)]
    rfl
  rw [hstep, hone, gatherTr_new,
    gatherAll_single_step file T tags values _ _
      (fun t ht => h t (List.mem_cons_of_mem _ ht)) (by simpa using hlen)]
  simp [setVals, List.zip]

/-- When the single gathered translation's value vector still contains
the sentinel, `get_translation` classifies it invalid: it is removed
from `found`, collected in `invalid`, and no line is rendered. -/
theorem get_translation_single_invalid (file : TranslationFile) (T : Translation)
    (tag0 : String) (tags : List String) (v0 : TValue) (values : List TValue)
    (lang : String)
    (h : ∀ tag ∈ tag0 :: tags, dictLookup file.translations_hash tag = some [T])
    (hlen : (tag0 :: tags).length ≤ (v0 :: values).length)
    (hsent : sentinel ∈ setVals T.ids ((tag0 :: tags).zip (v0 :: values))
      (List.replicate T.ids.length sentinel)) :
    file.get_translation (tag0 :: tags) (v0 :: values) lang =
      .ok ⟨[], [], [], [], [], [], [T], []⟩ := by
  unfold TranslationFile.get_translation
  rw [gatherAll_single file T tag0 tags v0 values h hlen]
  have hsent2 : decide (sentinel ∈ setVals T.ids ((tag0, v0) :: tags.zip values)
      (List.replicate T.ids.length sentinel)) = true := decide_eq_true hsent
  simp [renderAll, hsent2]

/-! ### Claim C3 -/

/-- C3: a query supplying values for only a proper subset of a multi-id
translation's ids (every queried tag indexing exactly that translation)
leaves the sentinel at the position of each unsupplied id, so the
translation is removed from `found`, collected in `invalid`, and the
query renders no line at all. -/
theorem C3_partial_query_invalid (file : TranslationFile) (T : Translation)
    (tags : List String) (values : List TValue) (lang missing_id : String)
    (hbucket : ∀ tag ∈ tags, dictLookup file.translations_hash tag = some [T])
    (htags : ∀ tag ∈ tags, tag ∈ T.ids)
    (hne : tags ≠ [])
    (hlen : tags.length ≤ values.length)
    (hmiss : missing_id ∈ T.ids)
    (hmiss2 : missing_id ∉ tags)
    (hnodup : T.ids.Nodup) :
    file.get_translation tags values lang = .ok ⟨[], [], [], [], [], [], [T], []⟩ := by
  match tags, values with
  | [], _ => exact absurd rfl hne
  | tag0 :: tags2, [] => simp at hlen
  | tag0 :: tags2, v0 :: values2 =>
      apply get_translation_single_invalid file T tag0 tags2 v0 values2 lang hbucket hlen
      have hp : T.ids.indexOf missing_id < T.ids.length := List.indexOf_lt_length.2 hmiss
      have hne2 : ∀ pr ∈ (tag0 :: tags2).zip (v0 :: values2),
          T.ids.indexOf pr.1 ≠ T.ids.indexOf missing_id := by
        intro pr hpr habs
        have hmem1 : pr.1 ∈ tag0 :: tags2 := (List.of_mem_zip hpr).1
        have : pr.1 = missing_id :=
          (List.indexOf_inj (htags pr.1 hmem1) hmiss).1 habs
        exact hmiss2 (this ▸ hmem1)
      have hget : (setVals T.ids ((tag0 :: tags2).zip (v0 :: values2))
          (List.replicate T.ids.length sentinel))[T.ids.indexOf missing_id]? =
            some sentinel := by
        rw [setVals_getElem_ne _ _ _ _ hne2]
        simp [List.getElem?_replicate, hp]
      obtain ⟨hlt, hvv⟩ := List.getElem?_eq_some.1 hget
      have hmem := List.getElem_mem hlt
      rw [hvv] at hmem
      exact hmem

/-- The wildcard variant of the spec's scenario 4. -/
def tsC3 : TranslationString :=
  { string := "%1% and %2%", range := [⟨none, none⟩, ⟨none, none⟩], quantifier := ⟨[]⟩ }

/-- The English bundle of the spec's scenario 4. -/
def tlC3 : TranslationLanguage := { language := "English", strings := [tsC3] }

/-- The multi-id translation of the spec's scenario 4: ids `(a, b)`,
one wildcard English variant with template `%1% and %2%`. -/
def trC3 : Translation := { ids := ["a", "b"], languages := [tlC3] }

/-- The one-translation file of the spec's scenario 4. -/
def fileC3 : TranslationFile := mkFile [trC3]

/-- Witness for C3: querying only `a` of the `(a, b)` translation with
value 1 yields no lines and reports the translation invalid. -/
theorem C3_witness :
    fileC3.get_translation ["a"] [.scalar 1] ("English") =
      .ok ⟨[], [], [], [], [], [], [trC3], []⟩ :=
  C3_partial_query_invalid fileC3 trC3 ["a"] [.scalar 1] ("English") ("b")
    (by decide) (by decide) (by decide) (by decide) (by decide) (by decide) (by decide)

/-! ### Claim C10 -/

/-- C10: `get_translation` detects unsupplied positions with the
concrete sentinel `0xFFFFFFFF`, so a caller-supplied value equal to
4294967295 makes the translation it belongs to invalid — removed from
`found`, no rendered line — even when every one of its ids was
supplied with a value. -/
theorem C10_sentinel_value_invalid (file : TranslationFile) (T : Translation)
    (tags : List String) (values : List TValue) (lang tagS : String)
    (hbucket : ∀ tag ∈ tags, dictLookup file.translations_hash tag = some [T])
    (htags : ∀ tag ∈ tags, tag ∈ T.ids)
    (hcover : ∀ id2 ∈ T.ids, id2 ∈ tags)
    (hne : tags ≠ [])
    (hlen : tags.length ≤ values.length)
    (hndtags : tags.Nodup)
    (hpair : (tagS, sentinel) ∈ tags.zip values) :
    file.get_translation tags values lang = .ok ⟨[], [], [], [], [], [], [T], []⟩ := by
  match tags, values with
  | [], _ => exact absurd rfl hne
  | tag0 :: tags2, [] => simp at hlen
  | tag0 :: tags2, v0 :: values2 =>
      apply get_translation_single_invalid file T tag0 tags2 v0 values2 lang hbucket hlen
      have hfst : (((tag0 :: tags2).zip (v0 :: values2)).map Prod.fst) = tag0 :: tags2 :=
        List.map_fst_zip _ _ hlen
      have hS : tagS ∈ tag0 :: tags2 := (List.of_mem_zip hpair).1
      have hSids : tagS ∈ T.ids := htags tagS hS
      have hp : T.ids.indexOf tagS < (List.replicate T.ids.length sentinel).length := by
        rw [List.length_replicate]
        exact List.indexOf_lt_length.2 hSids
      have hget : (setVals T.ids ((tag0 :: tags2).zip (v0 :: values2))
          (List.replicate T.ids.length sentinel))[T.ids.indexOf tagS]? = some sentinel := by
        apply setVals_getElem_mem _ _ _ _ _ hpair (by rw [hfst]; exact hndtags)
          (fun pr hpr => htags pr.1 (List.of_mem_zip hpr).1) hp
      obtain ⟨hlt, hvv⟩ := List.getElem?_eq_some.1 hget
      have hmem := List.getElem_mem hlt
      rw [hvv] at hmem
      exact hmem

/-- A wildcard single-argument variant for the C10 witness file. -/
def tsC10 : TranslationString :=
  { string := "%1%", range := [⟨none, none⟩], quantifier := ⟨[]⟩ }

/-- The English bundle for the C10 witness file. -/
def tlC10 : TranslationLanguage := { language := "English", strings := [tsC10] }

/-- A single-id translation with one wildcard English variant. -/
def trC10 : Translation := { ids := ["a"], languages := [tlC10] }

/-- The one-translation file for the C10 witness. -/
def fileC10 : TranslationFile := mkFile [trC10]

/-- Witness for C10: supplying the value 4294967295 for the only id of
a translation makes the whole translation invalid with no line, even
though every id was supplied. -/
theorem C10_witness :
    fileC10.get_translation ["a"] [.scalar 4294967295] ("English") =
      .ok ⟨[], [], [], [], [], [], [trC10], []⟩ :=
  C10_sentinel_value_invalid fileC10 trC10 ["a"] [.scalar 4294967295] ("English") ("a")
    (by decide) (by decide) (by decide) (by decide) (by decide) (by decide) (by decide)

/-! ### Claim C4 -/

theorem dictSet_lookup_self (d : List (String × List Translation)) (k : String)
    (v : List Translation) (h : dictLookup d k = some v) : dictSet d k v = d := by
  induction d with
  | nil => simp [dictLookup] at h
  | cons p rest ih =>
      obtain ⟨p1, p2⟩ := p
      by_cases hk : p1 = k
      · subst hk
        rw [dictLookup, if_pos rfl] at h
        obtain rfl := Option.some.inj h
        rw [dictSet, if_pos rfl]
      · rw [dictLookup, if_neg hk] at h
        rw [dictSet, if_neg hk, ih h]

/-- Re-indexing a translation whose bucket is exactly a structurally
equal copy is a complete no-op: the loop returns on its first element
with no appends and no warnings. -/
theorem add_hashed_equal_self (file : TranslationFile) (tid : String) (t : Translation)
    (h : dictLookup file.translations_hash tid = some [t]) :
    file.add_translation_hashed tid t = (file, []) := by
  unfold TranslationFile.add_translation_hashed
  rw [h]
  simp [addScan, dictSet_lookup_self _ _ _ h]

/-- Folding `_add_translation_hashed` over a bucket of translations each
of which is already indexed as a singleton bucket changes nothing. -/
theorem addBucket_identity (tid : String) (bucket : List Translation)
    (acc : TranslationFile × List String)
    (h : ∀ tr ∈ bucket, dictLookup acc.1.translations_hash tid = some [tr]) :
    bucket.foldl
      (fun acc2 tr =>
        let step := acc2.1.add_translation_hashed tid tr
        (step.1, acc2.2 ++ step.2)) acc = acc := by
  induction bucket generalizing acc with
  | nil => rfl
  | cons tr rest ih =>
      have hstep : acc.1.add_translation_hashed tid tr = (acc.1, []) :=
        add_hashed_equal_self acc.1 tid tr (h tr (List.mem_cons_self _ _))
      rw [List.foldl_cons]
      simp only [hstep, List.append_nil, Prod.mk.eta]
      exact ih acc (fun q hq => h q (List.mem_cons_of_mem _ hq))

/-- The whole merge fold is the identity when every incoming translation
is already indexed identically. -/
theorem mergeEntries_identity (entries : List (String × List Translation))
    (acc : TranslationFile × List String)
    (h : ∀ e ∈ entries, ∀ tr ∈ e.2, dictLookup acc.1.translations_hash e.1 = some [tr]) :
    entries.foldl
      (fun acc entry =>
        entry.2.foldl
          (fun acc2 tr =>
            let step := acc2.1.add_translation_hashed entry.1 tr
            (step.1, acc2.2 ++ step.2))
          acc) acc = acc := by
  induction entries generalizing acc with
  | nil => rfl
  | cons e rest ih =>
      simp only [List.foldl_cons]
      rw [addBucket_identity e.1 e.2 acc (h e (List.mem_cons_self _ _))]
      exact ih acc (fun q hq => h q (List.mem_cons_of_mem _ hq))

/-- C4 amended: the shadowing rules hold for the id index, but merge is
not idempotent on the ordered list — it always appends the other file's
translations, so a structurally equal translation is duplicated there
while its index entry stays unchanged.  For a singleton bucket:
a structurally equal incoming translation leaves the file untouched by
the re-indexing step; an equal `ids` tuple replaces the bucket and
removes the old translation from the ordered list; a different `ids`
tuple is appended to the bucket with a DuplicateIdentifier warning. -/
theorem C4_amended_merge (F G : TranslationFile) (tid : String) (t old : Translation) :
    ((∀ e ∈ G.translations_hash, ∀ tr ∈ e.2,
        dictLookup F.translations_hash e.1 = some [tr]) →
      F.merge G = ({ translations := F.translations ++ G.translations,
                     translations_hash := F.translations_hash }, [])) ∧
    (dictLookup F.translations_hash tid = some [old] → t = old →
      F.add_translation_hashed tid t = (F, [])) ∧
    (dictLookup F.translations_hash tid = some [old] → t ≠ old → t.ids = old.ids →
      F.add_translation_hashed tid t =
        ({ translations := F.translations.erase old,
           translations_hash := dictSet F.translations_hash tid [t] }, [])) ∧
    (dictLookup F.translations_hash tid = some [old] → t ≠ old → t.ids ≠ old.ids →
      F.add_translation_hashed tid t =
        ({ translations := F.translations,
           translations_hash := dictSet F.translations_hash tid [old, t] },
         ["Duplicate id " ++ tid])) := by
  refine ⟨?_, ?_, ?_, ?_⟩
  · intro hid
    unfold TranslationFile.merge
    exact mergeEntries_identity G.translations_hash _ (fun e he tr htr => hid e he tr htr)
  · intro h heq
    subst heq
    exact add_hashed_equal_self F tid t h
  · intro h hne hids
    unfold TranslationFile.add_translation_hashed
    rw [h]
    simp [addScan, hne, hids]
  · intro h hne hids
    unfold TranslationFile.add_translation_hashed
    rw [h]
    simp [addScan, hne, hids]

/-- A one-argument variant used by the C4 file. -/
def tsC4 : TranslationString :=
  { string := "x", range := [⟨none, none⟩], quantifier := ⟨[]⟩ }

/-- The English bundle of the C4 file. -/
def tlC4 : TranslationLanguage := { language := "English", strings := [tsC4] }

/-- The single translation of the C4 file. -/
def trC4 : Translation := { ids := ["a"], languages := [tlC4] }

/-- A one-translation file for C4. -/
def fileC4 : TranslationFile := mkFile [trC4]

/-- A variant with a different phrase, same id tuple as `trC4`. -/
def tsC4b : TranslationString :=
  { string := "y", range := [⟨none, none⟩], quantifier := ⟨[]⟩ }

/-- The English bundle holding `tsC4b`. -/
def tlC4b : TranslationLanguage := { language := "English", strings := [tsC4b] }

/-- A translation with `trC4`'s ids but a different variant. -/
def trC4b : Translation := { ids := ["a"], languages := [tlC4b] }

/-- A two-argument variant for the distinct-ids translation. -/
def tsC4c : TranslationString :=
  { string := "z", range := [⟨none, none⟩, ⟨none, none⟩], quantifier := ⟨[]⟩ }

/-- The English bundle holding `tsC4c`. -/
def tlC4c : TranslationLanguage := { language := "English", strings := [tsC4c] }

/-- A translation sharing the id `a` but with a different ids tuple. -/
def trC4c : Translation := { ids := ["a", "b"], languages := [tlC4c] }

/-- C4 counterexample: merging a file with a structurally identical copy
of itself is not a no-op — the ordered translation list is duplicated,
so merge is not idempotent on structurally equal inputs. -/
theorem C4_counterexample :
    (fileC4.merge fileC4).1 ≠ fileC4 ∧
    (fileC4.merge fileC4).1.translations = [trC4, trC4] := by decide

/-- Witness for C4: the four amended clauses at a concrete file. -/
theorem C4_witness :
    fileC4.merge fileC4 =
      ({ translations := fileC4.translations ++ fileC4.translations,
         translations_hash := fileC4.translations_hash }, []) ∧
    fileC4.add_translation_hashed ("a") trC4 = (fileC4, []) ∧
    fileC4.add_translation_hashed ("a") trC4b =
      ({ translations := fileC4.translations.erase trC4,
         translations_hash := dictSet fileC4.translations_hash ("a") [trC4b] }, []) ∧
    fileC4.add_translation_hashed ("a") trC4c =
      ({ translations := fileC4.translations,
         translations_hash := dictSet fileC4.translations_hash ("a") [trC4, trC4c] },
       ["Duplicate id " ++ "a"]) :=
  ⟨(C4_amended_merge fileC4 fileC4 ("a") trC4 trC4).1 (by decide),
   (C4_amended_merge fileC4 fileC4 ("a") trC4 trC4).2.1 (by decide) rfl,
   (C4_amended_merge fileC4 fileC4 ("a") trC4b trC4).2.2.1 (by decide) (by decide) rfl,
   (C4_amended_merge fileC4 fileC4 ("a") trC4c trC4).2.2.2 (by decide) (by decide) (by decide)⟩

/-! ### Claim C8 -/

/-- When the tags outrun the values the gathering loop raises
IndexError at `values[i]`, whatever the file and state. -/
theorem gatherAll_short (file : TranslationFile) :
    ∀ (tags : List String) (values : List TValue) (st : GatherState),
    values.length < tags.length →
    gatherAll file tags values st = .error .indexError := by
  intro tags
  induction tags with
  | nil => intro values st h; simp at h
  | cons tag tags ih =>
      intro values st h
      match values with
      | [] => rfl
      | v :: vs =>
          have hstep : gatherAll file (tag :: tags) (v :: vs) st =
              gatherAll file tags vs (gatherOne file st tag v) := rfl
          rw [hstep]
          exact ih vs _ (by simpa using h)

/-- Surplus values beyond the tags are never inspected by the gathering
loop. -/
theorem gatherAll_surplus (file : TranslationFile) :
    ∀ (tags : List String) (values : List TValue) (st : GatherState),
    tags.length ≤ values.length →
    gatherAll file tags values st = gatherAll file tags (values.take tags.length) st := by
  intro tags
  induction tags with
  | nil => intro values st h; rfl
  | cons tag tags ih =>
      intro values st h
      match values with
      | [] => simp at h
      | v :: vs =>
          have hstep : gatherAll file (tag :: tags) (v :: vs) st =
              gatherAll file tags vs (gatherOne file st tag v) := rfl
          have hstep2 : gatherAll file (tag :: tags) ((v :: vs).take (tag :: tags).length) st =
              gatherAll file tags (vs.take tags.length) (gatherOne file st tag v) := rfl
          rw [hstep, hstep2]
          exact ih vs _ (by simpa using h)

/-- C8 amended: `get_translation` performs no length validation at all.
A call with fewer values than ids raises IndexError (not a typed
ArgumentMismatch), and a call with surplus values silently ignores the
extras and proceeds as if they were never passed. -/
theorem C8_amended_length_mismatch (file : TranslationFile) (tags : List String)
    (values : List TValue) (lang : String) :
    (values.length < tags.length →
      file.get_translation tags values lang = .error .indexError) ∧
    (tags.length ≤ values.length →
      file.get_translation tags values lang =
        file.get_translation tags (values.take tags.length) lang) := by
  constructor
  · intro h
    unfold TranslationFile.get_translation
    rw [gatherAll_short file tags values _ h]
  · intro h
    unfold TranslationFile.get_translation
    rw [gatherAll_surplus file tags values _ h]

/-- A one-argument wildcard variant for the C8 file. -/
def tsC8 : TranslationString :=
  { string := "%1%", range := [⟨none, none⟩], quantifier := ⟨[]⟩ }

/-- The English bundle of the C8 file. -/
def tlC8 : TranslationLanguage := { language := "English", strings := [tsC8] }

/-- The single translation of the C8 file. -/
def trC8 : Translation := { ids := ["a"], languages := [tlC8] }

/-- A one-translation file for C8. -/
def fileC8 : TranslationFile := mkFile [trC8]

/-- C8 counterexample: a call with more values than ids does not fail
with any error — the surplus value is silently ignored and the call
renders normally. -/
theorem C8_counterexample :
    fileC8.get_translation ["a"] [.scalar 1, .scalar 2] ("English") =
      .ok ⟨[trC8], ["1"], [[0]], [], [], [[.scalar 1]], [], [[]]⟩ := rfl

/-- Witness for C8: deficit raises IndexError; surplus is ignored. -/
theorem C8_witness :
    fileC8.get_translation ["a", "a"] [.scalar 1] ("English") = .error .indexError ∧
    fileC8.get_translation ["a"] [.scalar 1, .scalar 2] ("English") =
      fileC8.get_translation ["a"] ([TValue.scalar 1, TValue.scalar 2].take 1) ("English") :=
  ⟨(C8_amended_length_mismatch fileC8 ["a", "a"] [.scalar 1] ("English")).1 (by decide),
   (C8_amended_length_mismatch fileC8 ["a"] [.scalar 1, .scalar 2] ("English")).2 (by decide)⟩

/-! ### Claim C9 -/

/-- C9 amended: when a surviving translation's selected language bundle
has zero variants, the rendering loop raises IndexError (`temp[0]` on an
empty scored list) instead of reporting the translation as invalid. -/
theorem C9_amended_empty_bundle (tr : Translation) (idxs : List Nat) (vals : List TValue)
    (rest : List (Translation × List Nat × List TValue)) (lang : String)
    (tl : TranslationLanguage)
    (h1 : tr.get_language lang = some tl) (h2 : tl.strings = []) :
    renderAll lang ((tr, idxs, vals) :: rest) = .error .indexError := by
  have hgs : tl.get_string vals idxs = none := by
    unfold TranslationLanguage.get_string
    rw [h2]
  have hstep : renderAll lang ((tr, idxs, vals) :: rest) =
      match tr.get_language lang with
      | none => .error .attributeError
      | some tl2 =>
          match tl2.get_string vals idxs with
          | none => .error .indexError
          | some res =>
              match renderAll lang rest with
              | .error e => .error e
              | .ok out => .ok (res.1 :: out.1, res.2 :: out.2) := rfl
  rw [hstep, h1]
  simp [hgs]

/-- An English bundle with zero variants. -/
def tlC9 : TranslationLanguage := { language := "English", strings := [] }

/-- A translation whose only (English) bundle is empty. -/
def trC9 : Translation := { ids := ["a"], languages := [tlC9] }

/-- A one-translation file for C9. -/
def fileC9 : TranslationFile := mkFile [trC9]

/-- C9 counterexample: querying a translation whose English bundle has
zero variants raises IndexError — the query does throw, and the
translation is not reported in `invalid`. -/
theorem C9_counterexample :
    fileC9.get_translation ["a"] [.scalar 1] ("English") = .error .indexError := rfl

/-- Witness for C9: the rendering loop errors on the empty bundle. -/
theorem C9_witness :
    renderAll ("English") [(trC9, [0], [TValue.scalar 1])] = .error .indexError :=
  C9_amended_empty_bundle trC9 [0] [TValue.scalar 1] [] ("English") tlC9 rfl rfl

end PyPoE
